import Mathlib

/-!
Verification of the microplot motion-control core (szeka9/microplot).

This file gives a shallow embedding of the parts of the firmware that the
frozen claims talk about, translated from the Python sources:

* stepper.py        : coil-phase sequencing with backlash compensation
* machine.py        : machine state, boundary enforcement, the Bresenham
                      loop of MachineBase.move_to, and the Cartesian
                      get_step_differential
* speed_ctrl.py     : SpeedController.update_speed
* LM_microplot.py   : the junction-factor computation inside run_gcode
* positioning.py    : the candidate-selection fragment of resolve_arm_angles
* routines.py       : the workspace-dimension conversion in measure_workspace

Machine integers are modelled as Int/Nat, float quantities as rationals.
Asynchronous sleeps, pin writes and log output have no effect on the machine
state the claims mention and are not modelled; the limit-switch pins are
modelled as never asserted, matching the hypotheses of the claims that talk
about completed motions.
-/

namespace Microplot

/-- Number of coil pins per axis: len(m.primary_pins).  read_from_config in
machine.py rejects any configuration in which an axis does not have exactly
four pins, so this is the only value that can occur. -/
def pin_count : Nat := 4

/-- One backward coil-phase update from stepper.py:
int(s / 2) if s > 1 else 2 ** (len(pins) - 1). -/
def phase_half (s : Nat) : Nat :=
  if 1 < s then s / 2 else 2 ^ (pin_count - 1)

/-- One forward coil-phase update from stepper.py: s *= 2. -/
def phase_double (s : Nat) : Nat := s * 2

/-- The wrap applied after every phase update in stepper.py:
if s == 2 ** len(pins) then s = 1. -/
def phase_wrap (s : Nat) : Nat :=
  if s = 2 ^ pin_count then 1 else s

/-- One full phase transition (update then wrap), in the given direction.
Both the backlash loops and the regular stepping in stepper.py perform
exactly this combination. -/
def phase_transition (is_backward : Bool) (s : Nat) : Nat :=
  phase_wrap (if is_backward then phase_half s else phase_double s)

/-- Inclusive global boundaries, machine.py global_boundaries. -/
structure Boundaries where
  x_min : ℚ
  y_min : ℚ
  x_max : ℚ
  y_max : ℚ
deriving DecidableEq

/-- User boundaries, machine.py user_boundaries: each field may be unset
(None). -/
structure UserBoundaries where
  x_min : Option ℚ
  y_min : Option ℚ
  x_max : Option ℚ
  y_max : Option ℚ
deriving DecidableEq

/-- The machine state fields of MachineBase (machine.py) used by the embedded
operations.  dir_primary / dir_secondary start as None and afterwards hold
the last is_backward flag; the Python comparisons dir == dir_forward and
dir == dir_backward are comparisons with 0 and 1, which None fails and a
stored boolean satisfies exactly when it is false resp. true, so the
direction is modelled as Option Bool with forward = some false and
backward = some true. -/
structure Machine where
  steps_per_revolution : ℤ
  unit_per_revolution : ℚ
  backlash_steps_primary : Nat
  backlash_steps_secondary : Nat
  global_boundaries : Boundaries
  user_boundaries : UserBoundaries
  reject_oob : Bool
  dir_primary : Option Bool
  current_pos_primary : ℤ
  current_step_primary : Nat
  dir_secondary : Option Bool
  current_pos_secondary : ℤ
  current_step_secondary : Nat
deriving DecidableEq

/-- The machine state established by MachineBase.__init__ (machine.py lines
176-182): dir_primary = None, current_pos_primary = 0,
current_step_primary = 1, and the same for the secondary axis; the user
boundaries all start unset. -/
def mkMachine (spr : ℤ) (upr : ℚ) (bl_primary bl_secondary : Nat)
    (gb : Boundaries) (reject : Bool) : Machine where
  steps_per_revolution := spr
  unit_per_revolution := upr
  backlash_steps_primary := bl_primary
  backlash_steps_secondary := bl_secondary
  global_boundaries := gb
  user_boundaries := ⟨none, none, none, none⟩
  reject_oob := reject
  dir_primary := none
  current_pos_primary := 0
  current_step_primary := 1
  dir_secondary := none
  current_pos_secondary := 0
  current_step_secondary := 1

/-- The backlash-correction stage of step_primary (stepper.py lines 56-78).
The two Python if blocks are mutually exclusive (is_backward vs not
is_backward); each runs backlash_steps_primary phase transitions in the new
direction, wrapping after each one, and touches nothing but
current_step_primary. -/
def step_primary_backlash (m : Machine) (is_backward : Bool) : Machine :=
  if m.backlash_steps_primary ≠ 0 ∧ is_backward = true ∧ m.dir_primary = some false then
    { m with current_step_primary :=
        (phase_transition true)^[m.backlash_steps_primary] m.current_step_primary }
  else if m.backlash_steps_primary ≠ 0 ∧ is_backward = false ∧ m.dir_primary = some true then
    { m with current_step_primary :=
        (phase_transition false)^[m.backlash_steps_primary] m.current_step_primary }
  else m

/-- step_primary from stepper.py: backlash correction, store the new
direction, then one regular phase transition that also moves
current_pos_primary by one step. -/
def step_primary (m : Machine) (is_backward : Bool) : Machine :=
  let m1 := step_primary_backlash m is_backward
  let m2 := { m1 with dir_primary := some is_backward }
  if is_backward then
    { m2 with
        current_step_primary := phase_wrap (phase_half m2.current_step_primary)
        current_pos_primary := m2.current_pos_primary - 1 }
  else
    { m2 with
        current_step_primary := phase_wrap (phase_double m2.current_step_primary)
        current_pos_primary := m2.current_pos_primary + 1 }

/-- The backlash-correction stage of step_secondary (stepper.py lines
109-134), symmetric to the primary axis. -/
def step_secondary_backlash (m : Machine) (is_backward : Bool) : Machine :=
  if m.backlash_steps_secondary ≠ 0 ∧ is_backward = true ∧ m.dir_secondary = some false then
    { m with current_step_secondary :=
        (phase_transition true)^[m.backlash_steps_secondary] m.current_step_secondary }
  else if m.backlash_steps_secondary ≠ 0 ∧ is_backward = false ∧ m.dir_secondary = some true then
    { m with current_step_secondary :=
        (phase_transition false)^[m.backlash_steps_secondary] m.current_step_secondary }
  else m

/-- step_secondary from stepper.py. -/
def step_secondary (m : Machine) (is_backward : Bool) : Machine :=
  let m1 := step_secondary_backlash m is_backward
  let m2 := { m1 with dir_secondary := some is_backward }
  if is_backward then
    { m2 with
        current_step_secondary := phase_wrap (phase_half m2.current_step_secondary)
        current_pos_secondary := m2.current_pos_secondary - 1 }
  else
    { m2 with
        current_step_secondary := phase_wrap (phase_double m2.current_step_secondary)
        current_pos_secondary := m2.current_pos_secondary + 1 }

/-- The one-hot coil-phase values of a four-pin unipolar motor. -/
def OneHot (s : Nat) : Prop := s = 1 ∨ s = 2 ∨ s = 4 ∨ s = 8

instance (s : Nat) : Decidable (OneHot s) := by
  unfold OneHot; infer_instance

/-!
Boundary enforcement and the step differential of MachineBase.move_to
(machine.py lines 380-428) for the Cartesian machine.
-/

/-- Truncation toward zero, the behaviour of the Python int() conversion on
the float step differentials. -/
def ratTrunc (q : ℚ) : ℤ := if q < 0 then ⌈q⌉ else ⌊q⌋

/-- Python: None not in user_boundaries.values(). -/
def user_all_set (u : UserBoundaries) : Bool :=
  u.x_min.isSome && u.y_min.isSome && u.x_max.isSome && u.y_max.isSome

/-- The out_of_user_boundaries test in move_to: false unless all four user
bounds are set (the Python expression short-circuits on
None not in values()). -/
def out_of_user_boundaries (u : UserBoundaries) (x y : ℚ) : Bool :=
  match u.x_min, u.y_min, u.x_max, u.y_max with
  | some xm, some ym, some xM, some yM =>
      decide (x < xm) || decide (y < ym) || decide (x > xM) || decide (y > yM)
  | _, _, _, _ => false

/-- The out_of_global_boundaries test in move_to. -/
def out_of_global_boundaries (g : Boundaries) (x y : ℚ) : Bool :=
  decide (x < g.x_min) || decide (y < g.y_min) || decide (x > g.x_max) || decide (y > g.y_max)

/-- Componentwise clamp of the target to the user boundaries, the
all-set branch of the clamping code in move_to.  The catch-all branch is
unreachable: the clamp only runs under the user_all_set guard. -/
def clamp_user (u : UserBoundaries) (x y : ℚ) : ℚ × ℚ :=
  match u.x_min, u.y_min, u.x_max, u.y_max with
  | some xm, some ym, some xM, some yM => (max xm (min xM x), max ym (min yM y))
  | _, _, _, _ => (x, y)

/-- Componentwise clamp of the target to the global boundaries. -/
def clamp_global (g : Boundaries) (x y : ℚ) : ℚ × ℚ :=
  (max g.x_min (min g.x_max x), max g.y_min (min g.y_max y))

/-- The boundary-enforcement stage of move_to (machine.py lines 380-417):
none models the raised out-of-boundary error, some gives the (possibly
clamped) target handed to get_step_differential. -/
def move_to_target (m : Machine) (x y : ℚ) (safe : Bool) : Option (ℚ × ℚ) :=
  if safe && (out_of_global_boundaries m.global_boundaries x y ||
      out_of_user_boundaries m.user_boundaries x y) then
    if m.reject_oob then none
    else if user_all_set m.user_boundaries then some (clamp_user m.user_boundaries x y)
    else some (clamp_global m.global_boundaries x y)
  else some (x, y)

/-- CartesianPlotter.get_primary_cartesian (machine.py). -/
def get_primary_cartesian (m : Machine) : ℚ :=
  ((m.current_pos_primary : ℚ) / (m.steps_per_revolution : ℚ)) * m.unit_per_revolution

/-- CartesianPlotter.get_secondary_cartesian (machine.py). -/
def get_secondary_cartesian (m : Machine) : ℚ :=
  ((m.current_pos_secondary : ℚ) / (m.steps_per_revolution : ℚ)) * m.unit_per_revolution

/-- CartesianPlotter.get_step_differential (machine.py lines 512-528). -/
def get_step_differential (m : Machine) (x y : ℚ) : ℤ × ℤ :=
  (ratTrunc (((x - get_primary_cartesian m) / m.unit_per_revolution) *
      (m.steps_per_revolution : ℚ)),
   ratTrunc (((y - get_secondary_cartesian m) / m.unit_per_revolution) *
      (m.steps_per_revolution : ℚ)))

/-!
The Bresenham loop of move_to (machine.py lines 424-465).  The speed
controllers and the control() sleep only affect timing, never which steps
are taken, and the limit switches are modelled as never asserted, so the
loop state is the machine together with the Bresenham bookkeeping.  The
count fields record how many times step_primary and step_secondary were
called (backlash transitions are inside those calls and are not counted).
-/

structure BresState where
  m : Machine
  err : ℤ
  remaining_x : Nat
  remaining_y : Nat
  count_x : Nat
  count_y : Nat

/-- One iteration of the while loop in move_to: e2 is computed once, then
the X branch and the Y branch each fire when their condition holds. -/
def bres_iter (dx dy : Nat) (sx_neg sy_neg : Bool) (st : BresState) : BresState :=
  let e2 : ℤ := 2 * st.err
  let st1 :=
    if e2 > -(dy : ℤ) ∧ st.remaining_x > 0 then
      { st with
          m := step_primary st.m sx_neg
          remaining_x := st.remaining_x - 1
          err := st.err - (dy : ℤ)
          count_x := st.count_x + 1 }
    else st
  if e2 < (dx : ℤ) ∧ st1.remaining_y > 0 then
    { st1 with
        m := step_secondary st1.m sy_neg
        remaining_y := st1.remaining_y - 1
        err := st1.err + (dx : ℤ)
        count_y := st1.count_y + 1 }
  else st1

/-- The while loop, fuelled: none models a loop that fails to finish within
the given fuel (shown below never to happen with fuel dx + dy). -/
def bres_loop (dx dy : Nat) (sx_neg sy_neg : Bool) : Nat → BresState → Option BresState
  | 0, st =>
      if st.remaining_x = 0 ∧ st.remaining_y = 0 then some st else none
  | fuel + 1, st =>
      if st.remaining_x = 0 ∧ st.remaining_y = 0 then some st
      else bres_loop dx dy sx_neg sy_neg fuel (bres_iter dx dy sx_neg sy_neg st)

/-- The stepping part of move_to after the step differential is known
(machine.py lines 420-465): early return when both differentials are zero,
otherwise sign extraction, Bresenham setup and the loop. -/
def move_steps (m : Machine) (dx dy : ℤ) : Option BresState :=
  if dx = 0 ∧ dy = 0 then some ⟨m, 0, 0, 0, 0, 0⟩
  else
    let sx_neg := decide (dx < 0)
    let sy_neg := decide (dy < 0)
    let dxa := dx.natAbs
    let dya := dy.natAbs
    bres_loop dxa dya sx_neg sy_neg (dxa + dya)
      ⟨m, (dxa : ℤ) - (dya : ℤ), dxa, dya, 0, 0⟩

/-- Result of a full move_to call: oob carries the machine state at the
moment the out-of-boundary error is raised, fuel_out models a Bresenham
loop that failed to finish (proved impossible). -/
inductive MoveResult where
  | oob (m : Machine)
  | finished (st : BresState)
  | fuel_out
deriving Nonempty

/-- MachineBase.move_to for the Cartesian machine, composing boundary
enforcement, the step differential and the stepping loop. -/
def move_to (m : Machine) (x y : ℚ) (safe : Bool) : MoveResult :=
  match move_to_target m x y safe with
  | none => .oob m
  | some (x', y') =>
      match move_steps m (get_step_differential m x' y').1 (get_step_differential m x' y').2 with
      | some st => .finished st
      | none => .fuel_out

/-!
SpeedController (speed_ctrl.py).  The delays and rates are floats in the
source, modelled as rationals; update_speed is the pure state update of
current_delay_ms.
-/

structure SpeedController where
  init_delay_ms : ℚ
  target_delay_ms : ℚ
  current_delay_ms : ℚ
  acceleration_rate : ℚ
  acceleration_step_ms : ℚ
deriving DecidableEq

/-- SpeedController.__init__ (speed_ctrl.py lines 16-41).  The constructor
raises unless 0 < acceleration_rate <= 1 and target_delay_ms <
init_delay_ms; theorems about constructed controllers carry those
hypotheses. -/
def mkSpeedController (target_delay_ms init_delay_ms acceleration_rate : ℚ) :
    SpeedController where
  init_delay_ms := init_delay_ms
  target_delay_ms := target_delay_ms
  current_delay_ms := init_delay_ms
  acceleration_rate := acceleration_rate
  acceleration_step_ms := (init_delay_ms - target_delay_ms) * acceleration_rate

/-- Python: max(0.0, min(junction_factor, 1.0)). -/
def clamp01 (q : ℚ) : ℚ := max 0 (min q 1)

/-- The junction delay computed at the top of update_speed. -/
def junction_delay_ms (c : SpeedController) (junction_factor : ℚ) : ℚ :=
  c.target_delay_ms +
    (c.init_delay_ms - c.target_delay_ms) * (1 - clamp01 junction_factor)

/-- SpeedController.update_speed (speed_ctrl.py lines 82-110). -/
def update_speed (c : SpeedController) (remaining_steps junction_factor : ℚ) :
    SpeedController :=
  let jd := junction_delay_ms c junction_factor
  if c.current_delay_ms < c.target_delay_ms ∨
      (jd - c.current_delay_ms) / c.acceleration_step_ms ≥ remaining_steps then
    { c with current_delay_ms := min (c.current_delay_ms + c.acceleration_step_ms) jd }
  else if c.current_delay_ms > c.target_delay_ms then
    { c with current_delay_ms := max (c.current_delay_ms - c.acceleration_step_ms) c.target_delay_ms }
  else c

/-- A sequence of update_speed calls, each with its remaining_steps and
junction_factor arguments. -/
def run_updates (c : SpeedController) (us : List (ℚ × ℚ)) : SpeedController :=
  us.foldl (fun c u => update_speed c u.1 u.2) c

/-!
The junction-factor computation of run_gcode (LM_microplot.py lines
1292-1311).  The result of gcode_regex.search on the next queued command is
modelled as an Option: none when the next command is not a motion command.
cosine_similarity computes with float square roots, whose value never
influences which branch runs, so it enters as an explicit function
parameter; its uses and the clamp max(. , 0) are kept exactly as in the
source.
-/

/-- A successful match of the motion-command pattern: the G mode (0 or 1)
and the X and Y words. -/
structure MotionMatch where
  mode : Nat
  x : ℚ
  y : ℚ
deriving DecidableEq

/-- The junction factor passed to move_to by run_gcode.  The local variable
junction_factor is initialised to 1; it is set to 0 when the queue is empty,
and reassigned inside if next_command only when the peeked command matches
the motion pattern. -/
def compute_junction_factor (cos_sim : ℚ × ℚ → ℚ × ℚ → ℚ × ℚ → ℚ)
    (queue_empty : Bool) (next_command : Option MotionMatch)
    (absolute : Bool) (current_pos : ℚ × ℚ) (mode : Nat) (x y : ℚ) : ℚ :=
  if queue_empty then 0
  else
    match next_command with
    | none => 1
    | some nc =>
        if nc.mode ≠ mode then 0
        else if absolute then
          max (cos_sim current_pos (x, y) (nc.x, nc.y)) 0
        else
          let target_pos := (current_pos.1 + x, current_pos.2 + y)
          let next_pos := (target_pos.1 + nc.x, target_pos.2 + nc.y)
          max (cos_sim current_pos target_pos next_pos) 0

/-!
The candidate-selection fragment of resolve_arm_angles (positioning.py
lines 113-122).  phi stands for atan2(b, a), which lies in (-pi, pi]; ac
stands for acos(c / r), which lies in [0, pi]; piv stands for the constant
math.pi.  Python precedence makes the source expression
phi + acos(c / r) % (2 * pi) parse as phi + (acos(c / r) % (2 * pi)).
-/

/-- The Python float modulo for a positive modulus. -/
def pymod (a b : ℚ) : ℚ := a - b * ⌊a / b⌋

/-- The wrap applied to each candidate angle: if t > pi then t - 2 * pi.
No symmetric wrap is applied for candidates below -pi. -/
def wrap_angle (piv t : ℚ) : ℚ := if t > piv then t - 2 * piv else t

/-- The primary-arm angle selected by resolve_arm_angles: the two
candidates, the one-sided wrap, and min([angle_1, angle_2], key=abs), which
keeps angle_1 on a tie. -/
def select_angle_primary (piv phi ac : ℚ) : ℚ :=
  let angle_1 := wrap_angle piv (phi + pymod ac (2 * piv))
  let angle_2 := wrap_angle piv (phi - pymod ac (2 * piv))
  if |angle_2| < |angle_1| then angle_2 else angle_1

/-- The workspace dimension computed by measure_workspace (routines.py
lines 188-196) from the counted steps: the counted steps divided by
steps_per_revolution and multiplied by steps_per_revolution again. -/
def measured_dimension (actual_steps steps_per_revolution : ℚ) : ℚ :=
  (actual_steps / steps_per_revolution) * steps_per_revolution

/-- Loop invariant for the Bresenham loop of move_to: the step counters
complement the remaining steps, the error term satisfies the Bresenham
identity, and the machine position counters reflect the steps taken so
far, each in the direction fixed by the sign flag of its axis. -/
def BresInv (dxa dya : Nat) (sx_neg sy_neg : Bool) (m0 : Machine) (st : BresState) : Prop :=
  st.count_x + st.remaining_x = dxa ∧
  st.count_y + st.remaining_y = dya ∧
  st.err = (dxa : ℤ) - (dya : ℤ) - (st.count_x : ℤ) * (dya : ℤ) +
    (st.count_y : ℤ) * (dxa : ℤ) ∧
  st.m.current_pos_primary = m0.current_pos_primary +
    (if sx_neg then -(st.count_x : ℤ) else (st.count_x : ℤ)) ∧
  st.m.current_pos_secondary = m0.current_pos_secondary +
    (if sy_neg then -(st.count_y : ℤ) else (st.count_y : ℤ))

/-!  Helper lemmas. -/

lemma oneHot_phase_transition {s : Nat} (b : Bool) (h : OneHot s) :
    OneHot (phase_transition b s) := by
  rcases h with h | h | h | h <;> subst h <;> cases b <;> decide

lemma oneHot_phase_transition_iterate {s : Nat} (b : Bool) (n : Nat) (h : OneHot s) :
    OneHot ((phase_transition b)^[n] s) := by
  induction n with
  | zero => exact h
  | succ k ih => rw [Function.iterate_succ_apply']; exact oneHot_phase_transition b ih

lemma step_primary_backlash_step {m : Machine} {b : Bool}
    (h : OneHot m.current_step_primary) :
    OneHot ((step_primary_backlash m b).current_step_primary) := by
  unfold step_primary_backlash
  split_ifs <;> first
    | exact oneHot_phase_transition_iterate _ _ h
    | exact h

lemma step_secondary_backlash_step {m : Machine} {b : Bool}
    (h : OneHot m.current_step_secondary) :
    OneHot ((step_secondary_backlash m b).current_step_secondary) := by
  unfold step_secondary_backlash
  split_ifs <;> first
    | exact oneHot_phase_transition_iterate _ _ h
    | exact h

lemma step_primary_step_eq (m : Machine) (b : Bool) :
    (step_primary m b).current_step_primary =
      phase_transition b ((step_primary_backlash m b).current_step_primary) := by
  unfold step_primary phase_transition
  cases b <;> rfl

lemma step_secondary_step_eq (m : Machine) (b : Bool) :
    (step_secondary m b).current_step_secondary =
      phase_transition b ((step_secondary_backlash m b).current_step_secondary) := by
  unfold step_secondary phase_transition
  cases b <;> rfl

lemma step_primary_backlash_pos_p (m : Machine) (b : Bool) :
    (step_primary_backlash m b).current_pos_primary = m.current_pos_primary := by
  unfold step_primary_backlash; split_ifs <;> rfl

lemma step_primary_backlash_pos_s (m : Machine) (b : Bool) :
    (step_primary_backlash m b).current_pos_secondary = m.current_pos_secondary := by
  unfold step_primary_backlash; split_ifs <;> rfl

lemma step_secondary_backlash_pos_p (m : Machine) (b : Bool) :
    (step_secondary_backlash m b).current_pos_primary = m.current_pos_primary := by
  unfold step_secondary_backlash; split_ifs <;> rfl

lemma step_secondary_backlash_pos_s (m : Machine) (b : Bool) :
    (step_secondary_backlash m b).current_pos_secondary = m.current_pos_secondary := by
  unfold step_secondary_backlash; split_ifs <;> rfl

lemma step_primary_pos_p (m : Machine) (b : Bool) :
    (step_primary m b).current_pos_primary =
      if b then m.current_pos_primary - 1 else m.current_pos_primary + 1 := by
  unfold step_primary
  cases b <;> simp [step_primary_backlash_pos_p]

lemma step_primary_pos_s (m : Machine) (b : Bool) :
    (step_primary m b).current_pos_secondary = m.current_pos_secondary := by
  unfold step_primary
  cases b <;> simp [step_primary_backlash_pos_s]

lemma step_secondary_pos_s (m : Machine) (b : Bool) :
    (step_secondary m b).current_pos_secondary =
      if b then m.current_pos_secondary - 1 else m.current_pos_secondary + 1 := by
  unfold step_secondary
  cases b <;> simp [step_secondary_backlash_pos_s]

lemma step_secondary_pos_p (m : Machine) (b : Bool) :
    (step_secondary m b).current_pos_primary = m.current_pos_primary := by
  unfold step_secondary
  cases b <;> simp [step_secondary_backlash_pos_p]

lemma clamp01_nonneg (q : ℚ) : 0 ≤ clamp01 q := le_max_left 0 _

lemma clamp01_le_one (q : ℚ) : clamp01 q ≤ 1 :=
  max_le (by norm_num) (min_le_right q 1)

lemma junction_delay_bounds (c : SpeedController) (jf : ℚ)
    (h : c.target_delay_ms ≤ c.init_delay_ms) :
    c.target_delay_ms ≤ junction_delay_ms c jf ∧
    junction_delay_ms c jf ≤ c.init_delay_ms := by
  unfold junction_delay_ms
  have h1 := clamp01_nonneg jf
  have h2 := clamp01_le_one jf
  constructor
  · nlinarith [mul_nonneg (sub_nonneg.mpr h) (by linarith : (0 : ℚ) ≤ 1 - clamp01 jf)]
  · nlinarith [mul_nonneg (sub_nonneg.mpr h) h1]

lemma update_speed_current_bounds (c : SpeedController) (r jf : ℚ)
    (hti : c.target_delay_ms ≤ c.init_delay_ms)
    (hlo : c.target_delay_ms ≤ c.current_delay_ms)
    (hhi : c.current_delay_ms ≤ c.init_delay_ms)
    (hstep : 0 < c.acceleration_step_ms) :
    c.target_delay_ms ≤ (update_speed c r jf).current_delay_ms ∧
    (update_speed c r jf).current_delay_ms ≤ c.init_delay_ms := by
  obtain ⟨hjd1, hjd2⟩ := junction_delay_bounds c jf hti
  simp only [update_speed]
  split_ifs with h1 h2
  · exact ⟨le_min (by linarith) hjd1, le_trans (min_le_right _ _) hjd2⟩
  · exact ⟨le_max_right _ _, max_le (by linarith) (by linarith)⟩
  · exact ⟨hlo, hhi⟩

lemma update_speed_const_fields (c : SpeedController) (r jf : ℚ) :
    (update_speed c r jf).target_delay_ms = c.target_delay_ms ∧
    (update_speed c r jf).init_delay_ms = c.init_delay_ms ∧
    (update_speed c r jf).acceleration_step_ms = c.acceleration_step_ms := by
  simp only [update_speed]
  split_ifs <;> exact ⟨rfl, rfl, rfl⟩

lemma run_updates_bounds :
    ∀ (us : List (ℚ × ℚ)) (c : SpeedController),
      0 < c.acceleration_step_ms →
      c.target_delay_ms ≤ c.init_delay_ms →
      c.target_delay_ms ≤ c.current_delay_ms →
      c.current_delay_ms ≤ c.init_delay_ms →
      c.target_delay_ms ≤ (run_updates c us).current_delay_ms ∧
      (run_updates c us).current_delay_ms ≤ c.init_delay_ms := by
  intro us
  induction us with
  | nil => intro c _ _ h1 h2; exact ⟨h1, h2⟩
  | cons u tl ih =>
      intro c hs ht h1 h2
      have hb := update_speed_current_bounds c u.1 u.2 ht h1 h2 hs
      obtain ⟨hc1, hc2, hc3⟩ := update_speed_const_fields c u.1 u.2
      have hrec := ih (update_speed c u.1 u.2) (by rw [hc3]; exact hs)
        (by rw [hc1, hc2]; exact ht) (by rw [hc1]; exact hb.1) (by rw [hc2]; exact hb.2)
      rw [hc1, hc2] at hrec
      simpa [run_updates] using hrec

lemma pymod_small (a b : ℚ) (h0 : 0 ≤ a) (hb : a < b) : pymod a b = a := by
  have hbpos : 0 < b := lt_of_le_of_lt h0 hb
  have hfl : ⌊a / b⌋ = 0 := by
    rw [Int.floor_eq_zero_iff]
    exact Set.mem_Ico.mpr ⟨div_nonneg h0 hbpos.le, by rw [div_lt_one hbpos]; exact hb⟩
  unfold pymod
  rw [hfl]
  ring

/-!  Claim theorems. -/

/-- C2: the coil phase is a one-hot invariant.  Starting from the initial
value 1, every phase transition (the regular step of step_primary and
step_secondary as well as each backlash transition inside them, all of
which are applications of phase_transition with the wrap applied) keeps
current_step_primary and current_step_secondary inside the set
of values 1, 2, 4, 8. -/
theorem coil_phase_one_hot :
    OneHot 1 ∧
    (∀ (s : Nat) (b : Bool), OneHot s → OneHot (phase_transition b s)) ∧
    (∀ (m : Machine) (b : Bool), OneHot m.current_step_primary →
      OneHot ((step_primary m b).current_step_primary)) ∧
    (∀ (m : Machine) (b : Bool), OneHot m.current_step_secondary →
      OneHot ((step_secondary m b).current_step_secondary)) := by
  refine ⟨by decide, fun s b h => oneHot_phase_transition b h, fun m b h => ?_, fun m b h => ?_⟩
  · rw [step_primary_step_eq]
    exact oneHot_phase_transition _ (step_primary_backlash_step h)
  · rw [step_secondary_step_eq]
    exact oneHot_phase_transition _ (step_secondary_backlash_step h)

/-- Witness for C2 at a freshly constructed machine. -/
theorem coil_phase_one_hot_witness :
    OneHot (mkMachine 2038 64 15 15 ⟨0, 0, 128, 263 / 2⟩ false).current_step_primary ∧
    OneHot ((step_primary (mkMachine 2038 64 15 15 ⟨0, 0, 128, 263 / 2⟩ false)
      true).current_step_primary) :=
  ⟨by decide, coil_phase_one_hot.2.2.1 (mkMachine 2038 64 15 15 ⟨0, 0, 128, 263 / 2⟩ false)
    true (by decide)⟩

/-- C9: with a positive backlash count and a direction reversal, the
backlash stage of step_primary performs exactly backlash_steps_primary
phase transitions in the new direction without touching the position
counter, and the regular step that follows moves the position by exactly
one; with an unchanged direction the backlash stage does nothing.  The
secondary axis is symmetric. -/
theorem backlash_reversal_transitions :
    ∀ m : Machine,
      (0 < m.backlash_steps_primary → m.dir_primary = some false →
        (step_primary_backlash m true).current_step_primary =
          (phase_transition true)^[m.backlash_steps_primary] m.current_step_primary ∧
        (step_primary_backlash m true).current_pos_primary = m.current_pos_primary ∧
        (step_primary m true).current_pos_primary = m.current_pos_primary - 1) ∧
      (0 < m.backlash_steps_primary → m.dir_primary = some true →
        (step_primary_backlash m false).current_step_primary =
          (phase_transition false)^[m.backlash_steps_primary] m.current_step_primary ∧
        (step_primary_backlash m false).current_pos_primary = m.current_pos_primary ∧
        (step_primary m false).current_pos_primary = m.current_pos_primary + 1) ∧
      (∀ b : Bool, m.dir_primary = some b → step_primary_backlash m b = m) ∧
      (0 < m.backlash_steps_secondary → m.dir_secondary = some false →
        (step_secondary_backlash m true).current_step_secondary =
          (phase_transition true)^[m.backlash_steps_secondary] m.current_step_secondary ∧
        (step_secondary_backlash m true).current_pos_secondary = m.current_pos_secondary ∧
        (step_secondary m true).current_pos_secondary = m.current_pos_secondary - 1) ∧
      (0 < m.backlash_steps_secondary → m.dir_secondary = some true →
        (step_secondary_backlash m false).current_step_secondary =
          (phase_transition false)^[m.backlash_steps_secondary] m.current_step_secondary ∧
        (step_secondary_backlash m false).current_pos_secondary = m.current_pos_secondary ∧
        (step_secondary m false).current_pos_secondary = m.current_pos_secondary + 1) ∧
      (∀ b : Bool, m.dir_secondary = some b → step_secondary_backlash m b = m) := by
  intro m
  refine ⟨fun hbl hdir => ?_, fun hbl hdir => ?_, fun b hdir => ?_,
    fun hbl hdir => ?_, fun hbl hdir => ?_, fun b hdir => ?_⟩
  · refine ⟨?_, step_primary_backlash_pos_p m true, ?_⟩
    · simp [step_primary_backlash, hdir, Nat.pos_iff_ne_zero.mp hbl]
    · rw [step_primary_pos_p]; simp
  · refine ⟨?_, step_primary_backlash_pos_p m false, ?_⟩
    · simp [step_primary_backlash, hdir, Nat.pos_iff_ne_zero.mp hbl]
    · rw [step_primary_pos_p]; simp
  · cases b <;> simp [step_primary_backlash, hdir]
  · refine ⟨?_, step_secondary_backlash_pos_s m true, ?_⟩
    · simp [step_secondary_backlash, hdir, Nat.pos_iff_ne_zero.mp hbl]
    · rw [step_secondary_pos_s]; simp
  · refine ⟨?_, step_secondary_backlash_pos_s m false, ?_⟩
    · simp [step_secondary_backlash, hdir, Nat.pos_iff_ne_zero.mp hbl]
    · rw [step_secondary_pos_s]; simp
  · cases b <;> simp [step_secondary_backlash, hdir]

/-- Witness for C9 on a machine whose primary direction is forward and
which is stepped backward with 15 backlash steps configured. -/
theorem backlash_reversal_transitions_witness :
    (step_primary_backlash
        { mkMachine 2038 64 15 15 ⟨0, 0, 128, 263 / 2⟩ false with
            dir_primary := some false } true).current_pos_primary =
      ({ mkMachine 2038 64 15 15 ⟨0, 0, 128, 263 / 2⟩ false with
            dir_primary := some false } : Machine).current_pos_primary :=
  ((backlash_reversal_transitions
    { mkMachine 2038 64 15 15 ⟨0, 0, 128, 263 / 2⟩ false with
        dir_primary := some false }).1 (by decide) (by decide)).2.1

/-- C10: the direction fields start as None, which differs from both
direction constants, so the very first step on each axis after machine
construction performs no backlash transitions, whatever its direction and
whatever backlash count is configured. -/
theorem first_step_skips_backlash :
    ∀ (spr : ℤ) (upr : ℚ) (blp bls : Nat) (gb : Boundaries) (r : Bool) (b : Bool),
      step_primary_backlash (mkMachine spr upr blp bls gb r) b =
        mkMachine spr upr blp bls gb r ∧
      step_secondary_backlash (mkMachine spr upr blp bls gb r) b =
        mkMachine spr upr blp bls gb r := by
  intro spr upr blp bls gb r b
  constructor <;> simp [step_primary_backlash, step_secondary_backlash, mkMachine]

/-- C8: the quantity assigned to the global boundaries by
measure_workspace is not converted to workspace units: the expression
divides the counted steps by steps_per_revolution and multiplies by
steps_per_revolution again, so it equals the raw step count.  At the
counted value 3057 with steps_per_revolution 2038 and unit_per_revolution
64 the code assigns 3057, while the converted dimension would be
3057 / 2038 * 64. -/
theorem measure_workspace_dimension_raw :
    measured_dimension 3057 2038 = 3057 ∧
    measured_dimension 3057 2038 ≠ 3057 / 2038 * 64 := by
  constructor <;> norm_num [measured_dimension]

/-- Counterexample for C4: when the queue is non-empty and the next queued
command does not match the motion pattern, run_gcode leaves the junction
factor at its initial value 1 instead of the claimed 0, for every cosine
function. -/
theorem junction_factor_nonmotion_counterexample :
    compute_junction_factor (fun _ _ _ => 0) false none true (0, 0) 0 1 1 = 1 ∧
    compute_junction_factor (fun _ _ _ => 0) false none true (0, 0) 0 1 1 ≠ 0 := by
  constructor <;> decide

/-- C4 (amended): the junction factor passed to move_to is 0 when the
queue is empty; it is 1 (the initial value, not 0) when the next queued
command is not a motion command; it is 0 when the next motion mode
differs; and otherwise it is the cosine similarity clamped below at 0,
with target and next target computed per the positioning mode. -/
theorem junction_factor_spec :
    ∀ (cos_sim : ℚ × ℚ → ℚ × ℚ → ℚ × ℚ → ℚ) (nc : Option MotionMatch)
      (absolute : Bool) (cur : ℚ × ℚ) (mode : Nat) (x y : ℚ),
      compute_junction_factor cos_sim true nc absolute cur mode x y = 0 ∧
      compute_junction_factor cos_sim false none absolute cur mode x y = 1 ∧
      (∀ n : MotionMatch, n.mode ≠ mode →
        compute_junction_factor cos_sim false (some n) absolute cur mode x y = 0) ∧
      (∀ n : MotionMatch, n.mode = mode →
        compute_junction_factor cos_sim false (some n) true cur mode x y =
          max (cos_sim cur (x, y) (n.x, n.y)) 0) ∧
      (∀ n : MotionMatch, n.mode = mode →
        compute_junction_factor cos_sim false (some n) false cur mode x y =
          max (cos_sim cur (cur.1 + x, cur.2 + y) (cur.1 + x + n.x, cur.2 + y + n.y)) 0) := by
  intro cos_sim nc absolute cur mode x y
  refine ⟨rfl, rfl, fun n hn => ?_, fun n hn => ?_, fun n hn => ?_⟩
  · simp [compute_junction_factor, hn]
  · simp [compute_junction_factor, hn]
  · simp [compute_junction_factor, hn]

/-- Witness for C4 (amended): a colinear next motion of the same mode in
absolute positioning. -/
theorem junction_factor_spec_witness :
    (⟨0, 20, 0⟩ : MotionMatch).mode = 0 ∧
    compute_junction_factor (fun _ _ _ => 1) false (some ⟨0, 20, 0⟩) true (0, 0) 0 10 0 =
      max ((fun (_ _ _ : ℚ × ℚ) => (1 : ℚ)) (0, 0) (10, 0) (20, 0)) 0 :=
  ⟨rfl, (junction_factor_spec (fun _ _ _ => 1) (some ⟨0, 20, 0⟩) true (0, 0) 0 10 0).2.2.2.1
    ⟨0, 20, 0⟩ rfl⟩

/-- Counterexample for C5: when the steps needed to ramp up to the
junction delay exactly equal remaining_steps, update_speed takes the
deceleration branch (the source compares with greater-or-equal), while the
claim predicts acceleration.  With target 1, init 5 and rate one half the
controller stays at delay 5 where the claim predicts max (5 - 2) 1 = 3. -/
theorem update_speed_equal_steps_counterexample :
    (update_speed (mkSpeedController 1 5 (1 / 2)) 0 0).current_delay_ms = 5 ∧
    (update_speed (mkSpeedController 1 5 (1 / 2)) 0 0).current_delay_ms ≠
      max ((5 : ℚ) - 2) 1 := by
  have h : (update_speed (mkSpeedController 1 5 (1 / 2)) 0 0).current_delay_ms = 5 := by
    norm_num [update_speed, mkSpeedController, junction_delay_ms, clamp01, min_def]
  refine ⟨h, ?_⟩
  rw [h]
  norm_num [max_def]

/-- C5 (amended): update_speed decelerates (delay raised by the
acceleration step, capped at the junction delay) exactly when the current
delay is below the target delay or the steps needed to ramp up to the
junction delay are greater than or equal to remaining_steps (not strictly
greater); otherwise it accelerates when above the target delay, floored at
the target, and otherwise leaves the controller unchanged. -/
theorem update_speed_decel_condition :
    ∀ (c : SpeedController) (r jf : ℚ),
      ((c.current_delay_ms < c.target_delay_ms ∨
          (junction_delay_ms c jf - c.current_delay_ms) / c.acceleration_step_ms ≥ r) →
        (update_speed c r jf).current_delay_ms =
          min (c.current_delay_ms + c.acceleration_step_ms) (junction_delay_ms c jf)) ∧
      (¬(c.current_delay_ms < c.target_delay_ms ∨
          (junction_delay_ms c jf - c.current_delay_ms) / c.acceleration_step_ms ≥ r) →
        c.target_delay_ms < c.current_delay_ms →
        (update_speed c r jf).current_delay_ms =
          max (c.current_delay_ms - c.acceleration_step_ms) c.target_delay_ms) ∧
      (¬(c.current_delay_ms < c.target_delay_ms ∨
          (junction_delay_ms c jf - c.current_delay_ms) / c.acceleration_step_ms ≥ r) →
        ¬(c.target_delay_ms < c.current_delay_ms) →
        update_speed c r jf = c) := by
  intro c r jf
  refine ⟨fun h => ?_, fun h h2 => ?_, fun h h2 => ?_⟩
  · simp only [update_speed, if_pos h]
  · simp only [update_speed, if_neg h, if_pos h2]
  · simp only [update_speed, if_neg h, if_neg h2]

/-- Witness for C5 (amended): a controller far from its target with many
remaining steps accelerates. -/
theorem update_speed_decel_condition_witness :
    (¬((mkSpeedController 1 5 (1 / 2)).current_delay_ms <
          (mkSpeedController 1 5 (1 / 2)).target_delay_ms ∨
        (junction_delay_ms (mkSpeedController 1 5 (1 / 2)) 1 -
            (mkSpeedController 1 5 (1 / 2)).current_delay_ms) /
            (mkSpeedController 1 5 (1 / 2)).acceleration_step_ms ≥ 100)) ∧
    (update_speed (mkSpeedController 1 5 (1 / 2)) 100 1).current_delay_ms =
      max ((mkSpeedController 1 5 (1 / 2)).current_delay_ms -
          (mkSpeedController 1 5 (1 / 2)).acceleration_step_ms)
        (mkSpeedController 1 5 (1 / 2)).target_delay_ms := by
  have h : ¬((mkSpeedController 1 5 (1 / 2)).current_delay_ms <
        (mkSpeedController 1 5 (1 / 2)).target_delay_ms ∨
      (junction_delay_ms (mkSpeedController 1 5 (1 / 2)) 1 -
          (mkSpeedController 1 5 (1 / 2)).current_delay_ms) /
          (mkSpeedController 1 5 (1 / 2)).acceleration_step_ms ≥ 100) := by
    norm_num [mkSpeedController, junction_delay_ms, clamp01, min_def]
  have h2 : (mkSpeedController 1 5 (1 / 2)).target_delay_ms <
      (mkSpeedController 1 5 (1 / 2)).current_delay_ms := by
    norm_num [mkSpeedController]
  exact ⟨h, (update_speed_decel_condition (mkSpeedController 1 5 (1 / 2)) 100 1).2.1 h h2⟩

/-- C3: boundary enforcement in move_to.  When the target is out of the
global boundaries or, with all four user boundaries set, out of the user
boundaries: with reject_oob the call fails with the out-of-boundary error
before any step, leaving the machine unchanged; without reject_oob the
target is clamped componentwise to the user boundaries when all four are
set and to the global ones otherwise, and the clamped pair is what
move_to hands to get_step_differential.  In-bounds targets and unsafe
calls pass through unchanged with no error. -/
theorem move_to_boundary_enforcement :
    ∀ (m : Machine) (x y : ℚ),
      ((out_of_global_boundaries m.global_boundaries x y ||
          out_of_user_boundaries m.user_boundaries x y) = true →
        (m.reject_oob = true → move_to m x y true = MoveResult.oob m) ∧
        (m.reject_oob = false → user_all_set m.user_boundaries = true →
          move_to_target m x y true = some (clamp_user m.user_boundaries x y)) ∧
        (m.reject_oob = false → user_all_set m.user_boundaries = false →
          move_to_target m x y true = some (clamp_global m.global_boundaries x y))) ∧
      ((out_of_global_boundaries m.global_boundaries x y ||
          out_of_user_boundaries m.user_boundaries x y) = false →
        move_to_target m x y true = some (x, y)) ∧
      move_to_target m x y false = some (x, y) := by
  intro m x y
  refine ⟨fun hoob => ⟨fun hrej => ?_, fun hrej huser => ?_, fun hrej huser => ?_⟩,
    fun hoob => ?_, ?_⟩
  · simp [move_to, move_to_target, hoob, hrej]
  · simp [move_to_target, hoob, hrej, huser]
  · simp [move_to_target, hoob, hrej, huser]
  · simp [move_to_target, hoob]
  · simp [move_to_target]

/-- Witness for C3: the scenario of the spec, target (999, 0) against the
global boundaries (0, 0)-(128, 131.5) with reject_oob off, clamps to the
global boundaries. -/
theorem move_to_boundary_enforcement_witness :
    (out_of_global_boundaries
        (mkMachine 2038 64 15 15 ⟨0, 0, 128, 263 / 2⟩ false).global_boundaries 999 0 ||
      out_of_user_boundaries
        (mkMachine 2038 64 15 15 ⟨0, 0, 128, 263 / 2⟩ false).user_boundaries 999 0) = true ∧
    move_to_target (mkMachine 2038 64 15 15 ⟨0, 0, 128, 263 / 2⟩ false) 999 0 true =
      some (clamp_global
        (mkMachine 2038 64 15 15 ⟨0, 0, 128, 263 / 2⟩ false).global_boundaries 999 0) := by
  have hoob : (out_of_global_boundaries
      (mkMachine 2038 64 15 15 ⟨0, 0, 128, 263 / 2⟩ false).global_boundaries 999 0 ||
    out_of_user_boundaries
      (mkMachine 2038 64 15 15 ⟨0, 0, 128, 263 / 2⟩ false).user_boundaries 999 0) = true := by
    norm_num [out_of_global_boundaries, out_of_user_boundaries, mkMachine]
  exact ⟨hoob,
    ((move_to_boundary_enforcement (mkMachine 2038 64 15 15 ⟨0, 0, 128, 263 / 2⟩ false)
      999 0).1 hoob).2.2 rfl rfl⟩

/-- C6: for a controller built with valid parameters, any sequence of
update_speed calls with nonnegative remaining_steps and arbitrary junction
factors keeps current_delay_ms between target_delay_ms and init_delay_ms;
since the junction delay never exceeds init_delay_ms (the junction factor
is clamped into the unit interval), this upper bound coincides with the
claimed max of init_delay_ms and the junction delay. -/
theorem speed_controller_delay_invariant (target init rate : ℚ)
    (h1 : target < init) (h2 : 0 < rate) (hrate : rate ≤ 1)
    (us : List (ℚ × ℚ)) (hrem : ∀ u ∈ us, 0 ≤ u.1) :
    target ≤ (run_updates (mkSpeedController target init rate) us).current_delay_ms ∧
    (run_updates (mkSpeedController target init rate) us).current_delay_ms ≤ init := by
  have hs : 0 < (mkSpeedController target init rate).acceleration_step_ms := by
    have : (0 : ℚ) < (init - target) * rate := by nlinarith
    simpa [mkSpeedController] using this
  exact run_updates_bounds us (mkSpeedController target init rate) hs h1.le h1.le le_rfl

/-- Witness for C6: the controller of the spec scenario with two updates
stays within its delay bounds. -/
theorem speed_controller_delay_invariant_witness :
    (1 : ℚ) < 5 ∧
    (1 : ℚ) ≤ (run_updates (mkSpeedController 1 5 (1 / 2)) [(10, 1), (0, 0)]).current_delay_ms ∧
    (run_updates (mkSpeedController 1 5 (1 / 2)) [(10, 1), (0, 0)]).current_delay_ms ≤ 5 := by
  have h := speed_controller_delay_invariant 1 5 (1 / 2) (by norm_num) (by norm_num)
    (by norm_num) [(10, 1), (0, 0)] (by norm_num)
  exact ⟨by norm_num, h.1, h.2⟩

/-- Counterexample for C7: the code wraps a candidate only downward (it
subtracts a full turn when the candidate exceeds pi but never adds one
below -pi).  With phi = -3 and acos value 3 - both inside the ranges of
atan2 and acos for pi between 3 and 3.1416 - the second candidate stays at
-6, outside the claimed interval. -/
theorem resolve_arm_wrap_counterexample :
    (-(314159 / 100000 : ℚ) < -3 ∧ (-3 : ℚ) ≤ 314159 / 100000 ∧
      (0 : ℚ) ≤ 3 ∧ (3 : ℚ) ≤ 314159 / 100000) ∧
    wrap_angle (314159 / 100000) (-3 - pymod 3 (2 * (314159 / 100000))) = -6 ∧
    ¬(-(314159 / 100000 : ℚ) <
        wrap_angle (314159 / 100000) (-3 - pymod 3 (2 * (314159 / 100000)))) := by
  have hm : pymod 3 (2 * (314159 / 100000 : ℚ)) = 3 :=
    pymod_small _ _ (by norm_num) (by norm_num)
  refine ⟨⟨by norm_num, by norm_num, by norm_num, by norm_num⟩, ?_, ?_⟩
  · rw [hm]; norm_num [wrap_angle]
  · rw [hm]; norm_num [wrap_angle]

/-- C7 (amended): only the downward wrap is applied to the two candidate
primary angles, so a candidate may remain below -pi; but such a candidate
is never selected (its absolute value exceeds that of the other, wrapped,
candidate), and the selected primary angle always lies in (-pi, pi]. -/
theorem resolve_arm_primary_angle_range (piv phi ac : ℚ) (hpiv : 0 < piv)
    (hphi1 : -piv < phi) (hphi2 : phi ≤ piv) (hac1 : 0 ≤ ac) (hac2 : ac ≤ piv) :
    -piv < select_angle_primary piv phi ac ∧ select_angle_primary piv phi ac ≤ piv := by
  have hm : pymod ac (2 * piv) = ac := pymod_small _ _ hac1 (by linarith)
  simp only [select_angle_primary, hm]
  have ha2 : wrap_angle piv (phi - ac) = phi - ac := by
    rw [wrap_angle, if_neg (by simp only [not_lt]; linarith)]
  rw [ha2]
  have ha1 : -piv < wrap_angle piv (phi + ac) ∧ wrap_angle piv (phi + ac) ≤ piv := by
    rw [wrap_angle]
    split_ifs with h
    · constructor <;> linarith
    · rw [not_lt] at h
      constructor <;> linarith
  by_cases hsel : |phi - ac| < |wrap_angle piv (phi + ac)|
  · rw [if_pos hsel]
    have habs : |wrap_angle piv (phi + ac)| ≤ piv := abs_le.mpr ⟨ha1.1.le, ha1.2⟩
    have hb := abs_lt.mp (lt_of_lt_of_le hsel habs)
    exact ⟨hb.1, hb.2.le⟩
  · rw [if_neg hsel]
    exact ha1

lemma bres_iter_inv (dxa dya : Nat) (sxn syn : Bool) (m0 : Machine) (st : BresState)
    (h : BresInv dxa dya sxn syn m0 st) :
    BresInv dxa dya sxn syn m0 (bres_iter dxa dya sxn syn st) := by
  obtain ⟨h1, h2, h3, h4, h5⟩ := h
  dsimp only [bres_iter]
  split_ifs with hx hy hy'
  · refine ⟨by simp; omega, by simp at hy ⊢; omega, ?_, ?_, ?_⟩
    · simp only
      rw [h3]
      push_cast
      ring
    · simp only [step_secondary_pos_p, step_primary_pos_p, h4]
      cases sxn <;> simp <;> ring
    · simp only [step_secondary_pos_s, step_primary_pos_s, h5]
      cases syn <;> simp <;> ring
  · refine ⟨by simp; omega, by simpa using h2, ?_, ?_, ?_⟩
    · simp only
      rw [h3]
      push_cast
      ring
    · simp only [step_primary_pos_p, h4]
      cases sxn <;> simp <;> ring
    · simp only [step_primary_pos_s, h5]
  · refine ⟨by simpa using h1, by simp; omega, ?_, ?_, ?_⟩
    · simp only
      rw [h3]
      push_cast
      ring
    · simp only [step_secondary_pos_p, h4]
    · simp only [step_secondary_pos_s, h5]
      cases syn <;> simp <;> ring
  · exact ⟨h1, h2, h3, h4, h5⟩

lemma bres_iter_progress (dxa dya : Nat) (sxn syn : Bool) (m0 : Machine) (st : BresState)
    (h : BresInv dxa dya sxn syn m0 st)
    (hne : 0 < st.remaining_x + st.remaining_y) :
    (bres_iter dxa dya sxn syn st).remaining_x + (bres_iter dxa dya sxn syn st).remaining_y <
      st.remaining_x + st.remaining_y := by
  obtain ⟨h1, h2, h3, -, -⟩ := h
  have hcx : (st.count_x : ℤ) = (dxa : ℤ) - (st.remaining_x : ℤ) := by omega
  have hcy : (st.count_y : ℤ) = (dya : ℤ) - (st.remaining_y : ℤ) := by omega
  rw [hcx, hcy] at h3
  dsimp only [bres_iter]
  split_ifs with hx hy hy'
  · simp at hy ⊢
    omega
  · simp
    omega
  · simp at hy' ⊢
    omega
  · exfalso
    rcases Nat.eq_zero_or_pos st.remaining_x with hrx | hrx
    · have hry : 0 < st.remaining_y := by omega
      have hdxle : ¬(2 * st.err < (dxa : ℤ)) := fun hlt => hy' ⟨hlt, hry⟩
      rw [not_lt] at hdxle
      have hb1 : (1 : ℤ) ≤ (st.remaining_y : ℤ) := by exact_mod_cast hry
      have hb2 : (st.remaining_y : ℤ) ≤ (dya : ℤ) := by omega
      have hb3 : (0 : ℤ) ≤ (dxa : ℤ) := by positivity
      have hrx0 : (st.remaining_x : ℤ) = 0 := by exact_mod_cast hrx
      rw [hrx0] at h3
      nlinarith [mul_le_mul_of_nonneg_right hb1 hb3]
    · have hA : ¬(2 * st.err > -(dya : ℤ)) := fun hgt => hx ⟨hgt, hrx⟩
      rw [not_lt] at hA
      rcases Nat.eq_zero_or_pos st.remaining_y with hry0 | hrypos
      · have hry0z : (st.remaining_y : ℤ) = 0 := by exact_mod_cast hry0
        rw [hry0z] at h3
        have hb1 : (1 : ℤ) ≤ (st.remaining_x : ℤ) := by exact_mod_cast hrx
        have hb2 : (st.remaining_x : ℤ) ≤ (dxa : ℤ) := by omega
        have hb3 : (0 : ℤ) ≤ (dya : ℤ) := by positivity
        nlinarith [mul_nonneg (by linarith : (0 : ℤ) ≤ 2 * (st.remaining_x : ℤ) - 1) hb3]
      · have hdxle : ¬(2 * st.err < (dxa : ℤ)) := fun hlt => hy' ⟨hlt, hrypos⟩
        rw [not_lt] at hdxle
        have hb1 : (1 : ℤ) ≤ (st.remaining_y : ℤ) := by exact_mod_cast hrypos
        have hb2 : (st.remaining_y : ℤ) ≤ (dya : ℤ) := by omega
        have hb3 : (0 : ℤ) ≤ (dxa : ℤ) := by positivity
        linarith

/-- Witness for C7 (amended) at pi stand-in 4, phi = 1, acos value 2. -/
theorem resolve_arm_primary_angle_range_witness :
    (0 : ℚ) < 4 ∧
    -(4 : ℚ) < select_angle_primary 4 1 2 ∧ select_angle_primary 4 1 2 ≤ 4 := by
  have h := resolve_arm_primary_angle_range 4 1 2 (by norm_num) (by norm_num)
    (by norm_num) (by norm_num) (by norm_num)
  exact ⟨by norm_num, h.1, h.2⟩

lemma bres_loop_total (dxa dya : Nat) (sxn syn : Bool) (m0 : Machine) :
    ∀ (fuel : Nat) (st : BresState), BresInv dxa dya sxn syn m0 st →
      st.remaining_x + st.remaining_y ≤ fuel →
      ∃ out, bres_loop dxa dya sxn syn fuel st = some out ∧
        BresInv dxa dya sxn syn m0 out ∧ out.remaining_x = 0 ∧ out.remaining_y = 0 := by
  intro fuel
  induction fuel with
  | zero =>
      intro st h hle
      have hx : st.remaining_x = 0 := by omega
      have hy : st.remaining_y = 0 := by omega
      exact ⟨st, by simp [bres_loop, hx, hy], h, hx, hy⟩
  | succ n ih =>
      intro st h hle
      by_cases h0 : st.remaining_x = 0 ∧ st.remaining_y = 0
      · exact ⟨st, by simp [bres_loop, h0.1, h0.2], h, h0.1, h0.2⟩
      · have hpos : 0 < st.remaining_x + st.remaining_y := by omega
        have hdec := bres_iter_progress dxa dya sxn syn m0 st h hpos
        obtain ⟨out, hout, hinv, hrx, hry⟩ :=
          ih (bres_iter dxa dya sxn syn st) (bres_iter_inv dxa dya sxn syn m0 st h) (by omega)
        refine ⟨out, ?_, hinv, hrx, hry⟩
        rw [bres_loop, if_neg h0]
        exact hout

/-- C1: for any step differential (dx, dy), the Bresenham loop of move_to
terminates and calls step_primary exactly natAbs dx times and
step_secondary exactly natAbs dy times (backlash transitions occur inside
those calls and are not counted), each call in the direction given by the
sign of its differential, so that the position counters change by exactly
dx and dy. -/
theorem move_to_bresenham_counts (m : Machine) (dx dy : ℤ) :
    ∃ st, move_steps m dx dy = some st ∧
      st.count_x = dx.natAbs ∧ st.count_y = dy.natAbs ∧
      st.m.current_pos_primary = m.current_pos_primary + dx ∧
      st.m.current_pos_secondary = m.current_pos_secondary + dy := by
  by_cases h0 : dx = 0 ∧ dy = 0
  · refine ⟨⟨m, 0, 0, 0, 0, 0⟩, by simp [move_steps, h0.1, h0.2], by simp [h0.1],
      by simp [h0.2], by simp [h0.1], by simp [h0.2]⟩
  · have hinv0 : BresInv dx.natAbs dy.natAbs (decide (dx < 0)) (decide (dy < 0)) m
        ⟨m, (dx.natAbs : ℤ) - (dy.natAbs : ℤ), dx.natAbs, dy.natAbs, 0, 0⟩ := by
      refine ⟨by simp, by simp, by simp, by simp, by simp⟩
    obtain ⟨out, hout, hinv, hrx, hry⟩ := bres_loop_total dx.natAbs dy.natAbs
      (decide (dx < 0)) (decide (dy < 0)) m (dx.natAbs + dy.natAbs) _ hinv0 le_rfl
    obtain ⟨h1, h2, h3, h4, h5⟩ := hinv
    have hcx : out.count_x = dx.natAbs := by omega
    have hcy : out.count_y = dy.natAbs := by omega
    refine ⟨out, ?_, hcx, hcy, ?_, ?_⟩
    · simp only [move_steps, if_neg h0]
      exact hout
    · rw [h4, hcx]
      simp only [decide_eq_true_eq]
      split_ifs <;> omega
    · rw [h5, hcy]
      simp only [decide_eq_true_eq]
      split_ifs <;> omega

end Microplot
